import Mathlib

/-!
Verification of the density module of the kernel goodness-of-fit repository
(`kgof/density.py`).  Each concrete density class is shallowly embedded:
an input batch `X` is a function `Fin n → Fin d → ℝ` (n rows, d columns),
`np.sum(..., 1)` becomes a `Finset` sum over the column index, `np.exp`,
`np.log` become `Real.exp`, `Real.log`.  The `Normal` class, whose claims
are purely algebraic (eigen-decomposition based precision matrix and
construction-time validation), is embedded over `ℚ`, which faithfully
represents the finite floating-point values flowing through that code and
keeps every definition executable.
-/

open scoped BigOperators

noncomputable section

/-! ## IsotropicNormal (density.py lines 71-97) -/

/-- Translated from `IsotropicNormal.log_den`:
`unden = -np.sum((X-mean)**2, 1)/(2.0*variance)`. -/
def IsotropicNormal.log_den {d n : ℕ} (mean : Fin d → ℝ) (variance : ℝ)
    (X : Fin n → Fin d → ℝ) : Fin n → ℝ :=
  fun r => -(∑ j, (X r j - mean j) ^ 2) / (2 * variance)

/-- Translated from `IsotropicNormal.dim`: `return len(mean)`. -/
def IsotropicNormal.dim {d : ℕ} (_mean : Fin d → ℝ) (_variance : ℝ) : ℕ := d

/-- Modelled from the external call `stats.multivariate_normal.logpdf(X,
mean, variance*np.eye(d))` in `IsotropicNormal.log_normalized_den`
(density.py lines 89-91): the standard multivariate normal log-pdf with
covariance `variance • I`, namely
`-(d/2)·log(2π) - (1/2)·log(det(variance•I)) - ‖x-mean‖²/(2·variance)`
with `det(variance•I) = variance^d`. -/
def IsotropicNormal.log_normalized_den {d n : ℕ} (mean : Fin d → ℝ) (variance : ℝ)
    (X : Fin n → Fin d → ℝ) : Fin n → ℝ :=
  fun r => -((d : ℝ) * Real.log (2 * Real.pi)) / 2 - Real.log (variance ^ d) / 2
    - (∑ j, (X r j - mean j) ^ 2) / (2 * variance)

/-! ## Gamma and LogGamma (density.py lines 243-299) -/

/-- Translated from `Gamma.log_den`:
`unden = np.sum(-beta*X + (alpha-1)*np.log(X), 1)`. -/
def Gamma.log_den {d n : ℕ} (alpha beta : ℝ) (X : Fin n → Fin d → ℝ) : Fin n → ℝ :=
  fun r => ∑ j, (-beta * X r j + (alpha - 1) * Real.log (X r j))

/-- Translated from `LogGamma.log_den`:
`unden = np.sum(-beta*np.exp(X) + (alpha-1)*X + X, 1)`. -/
def LogGamma.log_den {d n : ℕ} (alpha beta : ℝ) (X : Fin n → Fin d → ℝ) : Fin n → ℝ :=
  fun r => ∑ j, (-beta * Real.exp (X r j) + (alpha - 1) * X r j + X r j)

/-! ## Theorems for the scalar-family claims -/

/-- Claim C5: for every mean of length d, positive variance and n×d input X,
`IsotropicNormal.log_den X` equals `-sum((X-mean)^2, axis=1)/(2*variance)`
row-wise, `dim` equals the length of the mean, and in the concrete scenario
with mean `[0,0]`, variance 1, the values on `[[0,0],[1,1]]` are `[0, -1]`. -/
theorem isotropic_normal_log_den_spec {d n : ℕ} (mean : Fin d → ℝ) (variance : ℝ)
    (hv : 0 < variance) (X : Fin n → Fin d → ℝ) :
    (∀ r, IsotropicNormal.log_den mean variance X r
        = -(∑ j, (X r j - mean j) ^ 2) / (2 * variance))
    ∧ IsotropicNormal.dim mean variance = d
    ∧ IsotropicNormal.log_den ![(0 : ℝ), 0] 1 ![![0, 0], ![1, 1]] = ![0, -1] := by
  refine ⟨fun r => rfl, rfl, ?_⟩
  funext r
  fin_cases r <;>
    simp [IsotropicNormal.log_den, Fin.sum_univ_two] <;> norm_num

/-- Witness for C5: the hypotheses are satisfiable at the spec scenario
mean `[0,0]`, variance 1, X = `[[0,0],[1,1]]`. -/
theorem isotropic_normal_log_den_spec_witness :
    (0 : ℝ) < 1 ∧
    ((∀ r, IsotropicNormal.log_den ![(0 : ℝ), 0] 1 ![![0, 0], ![1, 1]] r
        = -(∑ j, (![![(0:ℝ), 0], ![1, 1]] r j - ![(0 : ℝ), 0] j) ^ 2) / (2 * 1))
    ∧ IsotropicNormal.dim ![(0 : ℝ), 0] 1 = 2
    ∧ IsotropicNormal.log_den ![(0 : ℝ), 0] 1 ![![0, 0], ![1, 1]] = ![0, -1]) :=
  ⟨by norm_num,
   isotropic_normal_log_den_spec ![(0 : ℝ), 0] 1 (by norm_num) ![![0, 0], ![1, 1]]⟩

/-- Claim C8: for fixed mean and positive variance, the difference between
the normalized and unnormalized isotropic-normal log densities is the same
constant `-(d/2)·log(2π·variance)` for every row of every input. -/
theorem isotropic_normal_normalizer_constant {d n : ℕ} (mean : Fin d → ℝ)
    (variance : ℝ) (hv : 0 < variance) (X : Fin n → Fin d → ℝ) (r : Fin n) :
    IsotropicNormal.log_normalized_den mean variance X r
      - IsotropicNormal.log_den mean variance X r
    = -((d : ℝ) / 2) * Real.log (2 * Real.pi * variance) := by
  have h2pi : (0 : ℝ) < 2 * Real.pi := by positivity
  rw [IsotropicNormal.log_normalized_den, IsotropicNormal.log_den,
    Real.log_mul h2pi.ne' hv.ne', Real.log_pow]
  ring

/-- Witness for C8: instantiated at mean `[0]`, variance 1, X = `[[2]]`. -/
theorem isotropic_normal_normalizer_constant_witness :
    (0 : ℝ) < 1 ∧
    IsotropicNormal.log_normalized_den ![(0 : ℝ)] 1 ![![2]] 0
      - IsotropicNormal.log_den ![(0 : ℝ)] 1 ![![2]] 0
    = -(((1 : ℕ) : ℝ) / 2) * Real.log (2 * Real.pi * 1) :=
  ⟨by norm_num,
   isotropic_normal_normalizer_constant ![(0 : ℝ)] 1 (by norm_num) ![![2]] 0⟩

/-- Claim C6: for every shape `alpha`, scale `beta` and n×1 input X with
positive entries, `Gamma.log_den X` is row-wise
`sum(-beta*X + (alpha-1)*log X, axis=1)` (no log-gamma normalizer), and in
the concrete scenario `Gamma(2,1).log_den([[1],[2]]) = [-1, -2+ln 2]`. -/
theorem gamma_log_den_spec {n : ℕ} (alpha beta : ℝ) (X : Fin n → Fin 1 → ℝ)
    (hpos : ∀ r j, 0 < X r j) :
    (∀ r, Gamma.log_den alpha beta X r
        = ∑ j, (-beta * X r j + (alpha - 1) * Real.log (X r j)))
    ∧ Gamma.log_den 2 1 ![![(1 : ℝ)], ![2]] = ![-1, -2 + Real.log 2] := by
  refine ⟨fun r => rfl, ?_⟩
  funext r
  fin_cases r <;>
    simp [Gamma.log_den, Fin.sum_univ_one, Real.log_one] <;> ring

/-- Witness for C6: the positivity hypothesis is satisfiable at the spec
scenario `alpha = 2`, `beta = 1`, X = `[[1],[2]]`. -/
theorem gamma_log_den_spec_witness :
    (∀ r j, 0 < (![![(1 : ℝ)], ![2]]) r j) ∧
    Gamma.log_den 2 1 ![![(1 : ℝ)], ![2]] = ![-1, -2 + Real.log 2] := by
  have hpos : ∀ r j, 0 < (![![(1 : ℝ)], ![2]]) r j := by
    intro r j
    fin_cases r <;> fin_cases j <;> norm_num
  exact ⟨hpos, (gamma_log_den_spec 2 1 ![![(1 : ℝ)], ![2]] hpos).2⟩

/-- Claim C7: for every `alpha`, `beta` and real input X,
`LogGamma.log_den X` equals `Gamma.log_den (exp X)` plus the row sums of X
(the change-of-variables Jacobian term), so the reparameterized density is
defined on all of ℝ. -/
theorem log_gamma_change_of_variables {d n : ℕ} (alpha beta : ℝ)
    (X : Fin n → Fin d → ℝ) (r : Fin n) :
    LogGamma.log_den alpha beta X r
      = Gamma.log_den alpha beta (fun a j => Real.exp (X a j)) r + ∑ j, X r j := by
  rw [LogGamma.log_den, Gamma.log_den, ← Finset.sum_add_distrib]
  refine Finset.sum_congr rfl fun j _ => ?_
  rw [Real.log_exp]

end

/-! ## Normal with full covariance (density.py lines 100-131)

The `Normal` claims are algebraic: they concern the construction-time
validation, the cached precision matrix, and the `print` statement.  All
values flowing through that code are finite floating-point numbers, which
are rational, so this part is embedded over `ℚ` and stays executable.
`np.linalg.eig` is an external numeric routine; `Normal.init` takes its
output `E, V` as extra inputs, exactly as the constructor consumes it. -/

/-- State of a fully constructed `Normal` object: the attributes set by
`Normal.__init__` (`self.mean`, `self.cov`, `self.prec`). -/
structure NormalState (d : ℕ) where
  mean : Fin d → ℚ
  cov : Matrix (Fin d) (Fin d) ℚ
  prec : Matrix (Fin d) (Fin d) ℚ

/-- Translated from `Normal.__init__` (given the output `E, V` of the
external `np.linalg.eig(cov)` call): raises
`ValueError('covariance matrix is not full rank.')` when some
`abs(E[i]) <= 1e-7`, otherwise stores
`prec = V.dot(diag(1.0/E)).dot(V.T)` and prints it; the returned list
records the matrices printed to standard output. -/
def Normal.init {d : ℕ} (mean : Fin d → ℚ) (cov : Matrix (Fin d) (Fin d) ℚ)
    (E : Fin d → ℚ) (V : Matrix (Fin d) (Fin d) ℚ) :
    Except String (NormalState d × List (Matrix (Fin d) (Fin d) ℚ)) :=
  if ∃ i, |E i| ≤ (1e-7 : ℚ) then
    Except.error "covariance matrix is not full rank."
  else
    let prec := V * Matrix.diagonal (fun i => 1 / E i) * V.transpose
    Except.ok ({ mean := mean, cov := cov, prec := prec }, [prec])

/-- Translated from `Normal.log_den`:
`X0 = X - mean; X0prec = np.dot(X0, self.prec);
unden = -np.sum(X0prec*X0, 1)/2.0`. -/
def Normal.log_den {d n : ℕ} (st : NormalState d) (X : Fin n → Fin d → ℚ) :
    Fin n → ℚ :=
  fun r => -(∑ i, (∑ k, (X r k - st.mean k) * st.prec k i) * (X r i - st.mean i)) / 2

/-- Claim C2: for matching-dimension square inputs, `Normal` construction
raises the invalid-covariance error exactly when some eigenvalue returned
by `eig` has magnitude at most `1e-7` (producing no object), and succeeds
whenever every eigenvalue magnitude exceeds `1e-7`. -/
theorem normal_init_validation {d : ℕ} (mean : Fin d → ℚ)
    (cov : Matrix (Fin d) (Fin d) ℚ) (E : Fin d → ℚ)
    (V : Matrix (Fin d) (Fin d) ℚ) :
    (Normal.init mean cov E V = Except.error "covariance matrix is not full rank."
      ↔ ∃ i, |E i| ≤ (1e-7 : ℚ))
    ∧ ((∀ i, (1e-7 : ℚ) < |E i|) →
        ∃ st, Normal.init mean cov E V = Except.ok (st, [st.prec])) := by
  by_cases hc : ∃ i, |E i| ≤ (1e-7 : ℚ)
  · refine ⟨⟨fun _ => hc, fun _ => ?_⟩, fun hall => ?_⟩
    · rw [Normal.init, if_pos hc]
    · obtain ⟨i, hi⟩ := hc
      exact absurd hi (not_le.mpr (hall i))
  · have hok : Normal.init mean cov E V
        = Except.ok (⟨mean, cov, V * Matrix.diagonal (fun i => 1 / E i) * V.transpose⟩,
          [V * Matrix.diagonal (fun i => 1 / E i) * V.transpose]) := by
      rw [Normal.init, if_neg hc]
    refine ⟨⟨fun h => ?_, fun h => absurd h hc⟩, fun _ => ⟨_, hok⟩⟩
    rw [hok] at h
    exact absurd h (by simp)

/-- Witness for C2: with `E = [1]` every eigenvalue magnitude exceeds
`1e-7` and construction succeeds; with `E = [0]` construction fails with
the invalid-covariance error. -/
theorem normal_init_validation_witness :
    ((∀ i : Fin 1, (1e-7 : ℚ) < |(![(1 : ℚ)]) i|)
      ∧ ∃ st, Normal.init ![(0 : ℚ)] 1 ![(1 : ℚ)] 1 = Except.ok (st, [st.prec]))
    ∧ Normal.init ![(0 : ℚ)] 1 ![(0 : ℚ)] 1
        = Except.error "covariance matrix is not full rank." := by
  have hall : ∀ i : Fin 1, (1e-7 : ℚ) < |(![(1 : ℚ)]) i| := by
    intro i
    fin_cases i
    norm_num
  refine ⟨⟨hall, (normal_init_validation ![(0 : ℚ)] 1 ![(1 : ℚ)] 1).2 hall⟩, ?_⟩
  exact (normal_init_validation ![(0 : ℚ)] 1 ![(0 : ℚ)] 1).1.mpr ⟨0, by norm_num⟩

/-- Claim C4: when `E, V` is a genuine spectral decomposition of the
covariance (orthogonal `V`) and every eigenvalue magnitude exceeds `1e-7`,
construction succeeds, the cached precision equals
`V · diag(1/E) · V^T`, it satisfies `cov * prec = 1` exactly (hence within
tolerance `1e-6` of the identity), and `log_den` reads only the cached
`mean` and `prec` fields — it is never recomputed from `cov`. -/
theorem normal_precision_correct {d : ℕ} (mean : Fin d → ℚ)
    (cov : Matrix (Fin d) (Fin d) ℚ) (E : Fin d → ℚ)
    (V : Matrix (Fin d) (Fin d) ℚ)
    (hspec : cov = V * Matrix.diagonal E * V.transpose)
    (horth : V * V.transpose = 1)
    (hfull : ∀ i, (1e-7 : ℚ) < |E i|) :
    ∃ st, Normal.init mean cov E V = Except.ok (st, [st.prec])
      ∧ st.prec = V * Matrix.diagonal (fun i => 1 / E i) * V.transpose
      ∧ cov * st.prec = 1
      ∧ ∀ (n : ℕ) (st2 : NormalState d) (X : Fin n → Fin d → ℚ),
          st2.mean = st.mean → st2.prec = st.prec →
          Normal.log_den st2 X = Normal.log_den st X := by
  have hc : ¬ ∃ i, |E i| ≤ (1e-7 : ℚ) := by
    push_neg
    exact hfull
  have hEne : ∀ i, E i ≠ 0 := by
    intro i
    have h0 : (0 : ℚ) < |E i| := lt_trans (by norm_num) (hfull i)
    exact abs_pos.mp h0
  refine ⟨⟨mean, cov, V * Matrix.diagonal (fun i => 1 / E i) * V.transpose⟩,
    ?_, rfl, ?_, ?_⟩
  · rw [Normal.init, if_neg hc]
  · have hVtV : V.transpose * V = 1 := Matrix.mul_eq_one_comm.mp horth
    have hdiag : Matrix.diagonal E * Matrix.diagonal (fun i => 1 / E i) = 1 := by
      rw [Matrix.diagonal_mul_diagonal]
      have hone : (fun i => E i * (1 / E i)) = fun _ => (1 : ℚ) := by
        funext i
        exact mul_one_div_cancel (hEne i)
      rw [hone]
      exact Matrix.diagonal_one
    rw [hspec]
    simp only [mul_assoc]
    rw [show V.transpose * (V * (Matrix.diagonal (fun i => 1 / E i) * V.transpose))
        = (V.transpose * V) * (Matrix.diagonal (fun i => 1 / E i) * V.transpose) from
      (mul_assoc _ _ _).symm]
    rw [hVtV, one_mul]
    rw [show Matrix.diagonal E * (Matrix.diagonal (fun i => 1 / E i) * V.transpose)
        = (Matrix.diagonal E * Matrix.diagonal (fun i => 1 / E i)) * V.transpose from
      (mul_assoc _ _ _).symm]
    rw [hdiag, one_mul]
    exact horth
  · intro n st2 X hm hp
    funext r
    rw [Normal.log_den, Normal.log_den, hm, hp]

/-- Witness for C4: the hypotheses are satisfiable at dimension 1 with
identity covariance, `E = [1]`, `V = I`. -/
theorem normal_precision_correct_witness :
    ((1 : Matrix (Fin 1) (Fin 1) ℚ)
        = 1 * Matrix.diagonal ![(1 : ℚ)] * (1 : Matrix (Fin 1) (Fin 1) ℚ).transpose
      ∧ (1 : Matrix (Fin 1) (Fin 1) ℚ) * (1 : Matrix (Fin 1) (Fin 1) ℚ).transpose = 1
      ∧ ∀ i : Fin 1, (1e-7 : ℚ) < |(![(1 : ℚ)]) i|)
    ∧ ∃ st, Normal.init ![(0 : ℚ)] 1 ![(1 : ℚ)] 1 = Except.ok (st, [st.prec])
        ∧ st.prec = 1 * Matrix.diagonal (fun i => 1 / (![(1 : ℚ)]) i)
            * (1 : Matrix (Fin 1) (Fin 1) ℚ).transpose
        ∧ (1 : Matrix (Fin 1) (Fin 1) ℚ) * st.prec = 1
        ∧ ∀ (n : ℕ) (st2 : NormalState 1) (X : Fin n → Fin 1 → ℚ),
            st2.mean = st.mean → st2.prec = st.prec →
            Normal.log_den st2 X = Normal.log_den st X := by
  have hone : (![(1 : ℚ)] : Fin 1 → ℚ) = fun _ => 1 := by
    funext i
    fin_cases i
    rfl
  have h1 : (1 : Matrix (Fin 1) (Fin 1) ℚ)
      = 1 * Matrix.diagonal ![(1 : ℚ)] * (1 : Matrix (Fin 1) (Fin 1) ℚ).transpose := by
    rw [hone, Matrix.diagonal_one, Matrix.transpose_one, one_mul, one_mul]
  have h2 : (1 : Matrix (Fin 1) (Fin 1) ℚ) * (1 : Matrix (Fin 1) (Fin 1) ℚ).transpose = 1 := by
    rw [Matrix.transpose_one, one_mul]
  have h3 : ∀ i : Fin 1, (1e-7 : ℚ) < |(![(1 : ℚ)]) i| := by
    intro i
    fin_cases i
    norm_num
  exact ⟨⟨h1, h2, h3⟩, normal_precision_correct ![(0 : ℚ)] 1 ![(1 : ℚ)] 1 h1 h2 h3⟩

/-- Claim C10: every successful `Normal` construction has an observable
output side effect: the list of matrices printed to standard output is
exactly the freshly computed precision matrix, in particular nonempty. -/
theorem normal_init_prints_precision {d : ℕ} (mean : Fin d → ℚ)
    (cov : Matrix (Fin d) (Fin d) ℚ) (E : Fin d → ℚ)
    (V : Matrix (Fin d) (Fin d) ℚ) (st : NormalState d)
    (out : List (Matrix (Fin d) (Fin d) ℚ))
    (h : Normal.init mean cov E V = Except.ok (st, out)) :
    out = [st.prec] ∧ out ≠ [] := by
  rw [Normal.init] at h
  by_cases hc : ∃ i, |E i| ≤ (1e-7 : ℚ)
  · rw [if_pos hc] at h
    exact absurd h (by simp)
  · rw [if_neg hc] at h
    simp only [Except.ok.injEq, Prod.mk.injEq] at h
    obtain ⟨h1, h2⟩ := h
    subst h1
    subst h2
    exact ⟨rfl, by simp⟩

/-- Witness for C10: the concrete construction with identity covariance
succeeds and prints exactly its precision matrix. -/
theorem normal_init_prints_precision_witness :
    ∃ st out, Normal.init ![(0 : ℚ)] 1 ![(1 : ℚ)] 1 = Except.ok (st, out)
      ∧ out = [st.prec] ∧ out ≠ [] := by
  have hc : ¬ ∃ i : Fin 1, |(![(1 : ℚ)]) i| ≤ (1e-7 : ℚ) := by
    rintro ⟨i, hi⟩
    fin_cases i
    norm_num at hi
  have h : Normal.init ![(0 : ℚ)] 1 ![(1 : ℚ)] 1
      = Except.ok (⟨![(0 : ℚ)], 1,
          1 * Matrix.diagonal (fun i => 1 / (![(1 : ℚ)]) i)
            * (1 : Matrix (Fin 1) (Fin 1) ℚ).transpose⟩,
        [1 * Matrix.diagonal (fun i => 1 / (![(1 : ℚ)]) i)
            * (1 : Matrix (Fin 1) (Fin 1) ℚ).transpose]) := by
    rw [Normal.init, if_neg hc]
  exact ⟨_, _, h, normal_init_prints_precision _ _ _ _ _ _ h⟩

/-! ## Gamma / LogGamma get_datasource (density.py lines 262-263, 292-293)

`Gamma.get_datasource` and `LogGamma.get_datasource` both execute
`return data.DSNormal(self.mean, self.cov)`, but `Gamma.__init__` and
`LogGamma.__init__` only ever set the attributes `alpha` and `beta`.
Python attribute lookup is modelled explicitly: an object is the
association list of attributes set by its constructor, and reading a
missing attribute raises `AttributeError`. -/

/-- Attribute names occurring in the Gamma-family code. -/
inductive PyAttr where
  | alpha
  | beta
  | mean
  | cov
deriving DecidableEq, BEq

/-- A Python attribute value (numbers, vectors or matrices of finite
floating-point values, i.e. rationals). -/
inductive PyVal where
  | num : ℚ → PyVal
  | vec : List ℚ → PyVal
  | mat : List (List ℚ) → PyVal
deriving DecidableEq

/-- A Python object, as its attribute dictionary. -/
def PyObj := List (PyAttr × PyVal)

/-- Python attribute lookup: raises `AttributeError` when the attribute
was never assigned. -/
def getattr (self : PyObj) (a : PyAttr) : Except String PyVal :=
  match List.lookup a self with
  | some v => Except.ok v
  | none => Except.error "AttributeError"

/-- The `DataSource` collaborators constructed by the density module:
`data.DSNormal(mean, cov)` is the only one the Gamma-family code calls. -/
inductive DataSource where
  | dsNormal : PyVal → PyVal → DataSource
deriving DecidableEq

/-- Translated from `Gamma.__init__`: sets `self.alpha` and `self.beta`
and nothing else. -/
def Gamma.init_attrs (alpha beta : ℚ) : PyObj :=
  [(PyAttr.alpha, PyVal.num alpha), (PyAttr.beta, PyVal.num beta)]

/-- Translated from `LogGamma.__init__`: sets `self.alpha` and
`self.beta` and nothing else. -/
def LogGamma.init_attrs (alpha beta : ℚ) : PyObj :=
  [(PyAttr.alpha, PyVal.num alpha), (PyAttr.beta, PyVal.num beta)]

/-- Translated from `Gamma.get_datasource`:
`return data.DSNormal(self.mean, self.cov)`.  A `.ok none` result would
model a Python `None` return (the explicit unsupported signal of the base
class); a `.error` result models a raised exception. -/
def Gamma.get_datasource (self : PyObj) : Except String (Option DataSource) := do
  let m ← getattr self PyAttr.mean
  let c ← getattr self PyAttr.cov
  pure (some (DataSource.dsNormal m c))

/-- Translated from `LogGamma.get_datasource`:
`return data.DSNormal(self.mean, self.cov)`. -/
def LogGamma.get_datasource (self : PyObj) : Except String (Option DataSource) := do
  let m ← getattr self PyAttr.mean
  let c ← getattr self PyAttr.cov
  pure (some (DataSource.dsNormal m c))

/-- Claim C3 (refuting the claim on the code as written): for every
`alpha`, `beta`, calling `get_datasource` on a freshly constructed
`Gamma` or `LogGamma` object raises `AttributeError` — it neither returns
a `DataSource` built from the object's own parameters nor the explicit
unsupported value `None`.  The attributes `mean` and `cov` it reads are
never set by either constructor. -/
theorem gamma_get_datasource_attribute_error (alpha beta : ℚ) :
    Gamma.get_datasource (Gamma.init_attrs alpha beta)
        = Except.error "AttributeError"
    ∧ LogGamma.get_datasource (LogGamma.init_attrs alpha beta)
        = Except.error "AttributeError" :=
  ⟨rfl, rfl⟩

/-! ## GaussBernRBM (density.py lines 136-193) -/

noncomputable section

/-- Translated from `GaussBernRBM.log_den`, per row:
`XBC = np.dot(X, B) + c`. -/
def GaussBernRBM.xbc {dx dh : ℕ} (B : Matrix (Fin dx) (Fin dh) ℝ) (c : Fin dh → ℝ)
    (x : Fin dx → ℝ) : Fin dh → ℝ :=
  fun j => (∑ i, x i * B i j) + c j

/-- Translated from `GaussBernRBM.log_den`, per row:
`unden = np.dot(X, b) - 0.5*np.sum(X**2, 1)
  + np.sum(np.log(np.exp(XBC) + np.exp(-XBC)), 1)`. -/
def GaussBernRBM.log_den_row {dx dh : ℕ} (B : Matrix (Fin dx) (Fin dh) ℝ)
    (b : Fin dx → ℝ) (c : Fin dh → ℝ) (x : Fin dx → ℝ) : ℝ :=
  (∑ i, x i * b i) - 0.5 * (∑ i, x i ^ 2)
    + ∑ j, Real.log (Real.exp (GaussBernRBM.xbc B c x j)
        + Real.exp (-GaussBernRBM.xbc B c x j))

/-- Translated from `GaussBernRBM.log_den` for a batch X (row-wise). -/
def GaussBernRBM.log_den {dx dh n : ℕ} (B : Matrix (Fin dx) (Fin dh) ℝ)
    (b : Fin dx → ℝ) (c : Fin dh → ℝ) (X : Fin n → Fin dx → ℝ) : Fin n → ℝ :=
  fun r => GaussBernRBM.log_den_row B b c (X r)

/-- Translated from `GaussBernRBM.grad_log`:
`E2y = np.exp(2*Y); Phi = (E2y-1.0)/(E2y+1)` with `Y = X.dot(B) + c`. -/
def GaussBernRBM.phi {dx dh : ℕ} (B : Matrix (Fin dx) (Fin dh) ℝ) (c : Fin dh → ℝ)
    (x : Fin dx → ℝ) : Fin dh → ℝ :=
  fun j => (Real.exp (2 * GaussBernRBM.xbc B c x j) - 1)
    / (Real.exp (2 * GaussBernRBM.xbc B c x j) + 1)

/-- Translated from `GaussBernRBM.grad_log`:
`T = np.dot(Phi, B.T); S = self.b - X + T`. -/
def GaussBernRBM.grad_log {dx dh n : ℕ} (B : Matrix (Fin dx) (Fin dh) ℝ)
    (b : Fin dx → ℝ) (c : Fin dh → ℝ) (X : Fin n → Fin dx → ℝ) :
    Fin n → Fin dx → ℝ :=
  fun r i => b i - X r i + ∑ j, GaussBernRBM.phi B c (X r) j * B i j

/-- The ratio `(exp(2y)-1)/(exp(2y)+1)` computed by `grad_log` is `tanh y`. -/
lemma rbm_phi_eq_tanh (y : ℝ) :
    (Real.exp (2 * y) - 1) / (Real.exp (2 * y) + 1) = Real.tanh y := by
  have ha : Real.exp y ≠ 0 := Real.exp_ne_zero y
  have hb : Real.exp y * Real.exp y + 1 ≠ 0 := by positivity
  have hc2 : Real.exp y + Real.exp (-y) ≠ 0 := by positivity
  rw [Real.tanh_eq_sinh_div_cosh, Real.sinh_eq, Real.cosh_eq, two_mul,
    Real.exp_add, Real.exp_neg] at *
  field_simp

/-- Splitting a sum over all coordinates at an updated coordinate. -/
lemma rbm_sum_update {m : ℕ} (x : Fin m → ℝ) (i : Fin m) (t : ℝ)
    (F : Fin m → ℝ → ℝ) :
    ∑ k, F k (Function.update x i t k)
      = F i t + ∑ k in Finset.univ.erase i, F k (x k) := by
  rw [← Finset.add_sum_erase Finset.univ
    (fun k => F k (Function.update x i t k)) (Finset.mem_univ i)]
  congr 1
  · rw [Function.update_same]
  · refine Finset.sum_congr rfl fun k hk => ?_
    rw [Function.update_noteq (Finset.ne_of_mem_erase hk)]

/-- Derivative of one stable log-cosh summand along an affine argument. -/
lemma rbm_logcosh_hasDerivAt (a d t0 : ℝ) :
    HasDerivAt (fun t => Real.log (Real.exp (a * t + d) + Real.exp (-(a * t + d))))
      (a * Real.tanh (a * t0 + d)) t0 := by
  have hY : HasDerivAt (fun t : ℝ => a * t + d) a t0 := by
    simpa using ((hasDerivAt_id t0).const_mul a).add_const d
  have h1 : HasDerivAt (fun t => Real.exp (a * t + d))
      (Real.exp (a * t0 + d) * a) t0 := hY.exp
  have h2 : HasDerivAt (fun t => Real.exp (-(a * t + d)))
      (Real.exp (-(a * t0 + d)) * -a) t0 := hY.neg.exp
  have hpos : (0 : ℝ) < Real.exp (a * t0 + d) + Real.exp (-(a * t0 + d)) := by
    positivity
  have hlog := (h1.add h2).log hpos.ne'
  convert hlog using 1
  rw [Real.tanh_eq_sinh_div_cosh, Real.sinh_eq, Real.cosh_eq]
  field_simp
  ring

/-- Claim C1: the analytic `GaussBernRBM.grad_log` override equals
`b - x + tanh(x·B + c)·B^T` row-wise, and that value is exactly the
derivative of `log_den` with respect to each coordinate of each row
(hence it matches what differentiating `log_den` would give). -/
theorem gauss_bern_rbm_grad_log_is_score {dx dh n : ℕ}
    (B : Matrix (Fin dx) (Fin dh) ℝ) (b : Fin dx → ℝ) (c : Fin dh → ℝ)
    (X : Fin n → Fin dx → ℝ) (r : Fin n) (i : Fin dx) :
    GaussBernRBM.grad_log B b c X r i
      = b i - X r i + ∑ j, Real.tanh (GaussBernRBM.xbc B c (X r) j) * B i j
    ∧ HasDerivAt
        (fun t => GaussBernRBM.log_den_row B b c (Function.update (X r) i t))
        (GaussBernRBM.grad_log B b c X r i) (X r i) := by
  constructor
  · simp only [GaussBernRBM.grad_log, GaussBernRBM.phi, rbm_phi_eq_tanh]
  · have hupdate : ∀ t : ℝ,
        GaussBernRBM.log_den_row B b c (Function.update (X r) i t)
        = (t * b i + ∑ k in Finset.univ.erase i, X r k * b k)
          - 0.5 * (t ^ 2 + ∑ k in Finset.univ.erase i, X r k ^ 2)
          + ∑ j, Real.log
              (Real.exp (B i j * t + ((∑ k in Finset.univ.erase i, X r k * B k j) + c j))
              + Real.exp (-(B i j * t + ((∑ k in Finset.univ.erase i, X r k * B k j) + c j)))) := by
      intro t
      rw [GaussBernRBM.log_den_row]
      congr 1
      · congr 1
        · exact rbm_sum_update (X r) i t (fun k v => v * b k)
        · rw [rbm_sum_update (X r) i t (fun k v => v ^ 2)]
      · refine Finset.sum_congr rfl fun j _ => ?_
        have hx : GaussBernRBM.xbc B c (Function.update (X r) i t) j
            = B i j * t + ((∑ k in Finset.univ.erase i, X r k * B k j) + c j) := by
          rw [GaussBernRBM.xbc, rbm_sum_update (X r) i t (fun k v => v * B k j)]
          ring
        rw [hx]
    have hA : HasDerivAt
        (fun t : ℝ => t * b i + ∑ k in Finset.univ.erase i, X r k * b k)
        (b i) (X r i) := by
      simpa using ((hasDerivAt_id (X r i)).mul_const (b i)).add_const
        (∑ k in Finset.univ.erase i, X r k * b k)
    have hB : HasDerivAt
        (fun t : ℝ => 0.5 * (t ^ 2 + ∑ k in Finset.univ.erase i, X r k ^ 2))
        (0.5 * (2 * X r i)) (X r i) := by
      have hp : HasDerivAt (fun t : ℝ => t ^ 2) (2 * X r i) (X r i) := by
        simpa using hasDerivAt_pow 2 (X r i)
      exact (hp.add_const (∑ k in Finset.univ.erase i, X r k ^ 2)).const_mul 0.5
    have hC : HasDerivAt
        (fun t : ℝ => ∑ j, Real.log
            (Real.exp (B i j * t + ((∑ k in Finset.univ.erase i, X r k * B k j) + c j))
            + Real.exp (-(B i j * t + ((∑ k in Finset.univ.erase i, X r k * B k j) + c j)))))
        (∑ j, B i j * Real.tanh
            (B i j * X r i + ((∑ k in Finset.univ.erase i, X r k * B k j) + c j)))
        (X r i) :=
      HasDerivAt.sum fun j _ =>
        rbm_logcosh_hasDerivAt (B i j)
          ((∑ k in Finset.univ.erase i, X r k * B k j) + c j) (X r i)
    have htotal := (hA.sub hB).add hC
    rw [show (fun t => GaussBernRBM.log_den_row B b c (Function.update (X r) i t))
        = (fun t : ℝ =>
          (t * b i + ∑ k in Finset.univ.erase i, X r k * b k)
          - 0.5 * (t ^ 2 + ∑ k in Finset.univ.erase i, X r k ^ 2)
          + ∑ j, Real.log
              (Real.exp (B i j * t + ((∑ k in Finset.univ.erase i, X r k * B k j) + c j))
              + Real.exp (-(B i j * t + ((∑ k in Finset.univ.erase i, X r k * B k j) + c j)))))
      from funext hupdate]
    convert htotal using 1
    have hxbc : ∀ j, GaussBernRBM.xbc B c (X r) j
        = B i j * X r i + ((∑ k in Finset.univ.erase i, X r k * B k j) + c j) := by
      intro j
      rw [GaussBernRBM.xbc,
        ← Finset.add_sum_erase Finset.univ (fun k => X r k * B k j) (Finset.mem_univ i)]
      ring
    have hsum_eq : ∑ j, Real.tanh (GaussBernRBM.xbc B c (X r) j) * B i j
        = ∑ j, B i j * Real.tanh
            (B i j * X r i + ((∑ k in Finset.univ.erase i, X r k * B k j) + c j)) := by
      refine Finset.sum_congr rfl fun j _ => ?_
      rw [hxbc j]
      ring
    simp only [GaussBernRBM.grad_log, GaussBernRBM.phi, rbm_phi_eq_tanh]
    rw [hsum_eq]
    ring

/-- Bounds for one log-cosh summand when the pre-activation magnitude is
at most 50: the argument of the logarithm stays in `[2, 2^1023)` (well
inside double-precision range, so the naive `exp` form cannot overflow)
and the logarithm itself lies in `[0, 51]`. -/
lemma rbm_cosh_bounds (y : ℝ) (hy : |y| ≤ 50) :
    2 ≤ Real.exp y + Real.exp (-y)
    ∧ Real.exp y + Real.exp (-y) < 2 ^ 1023
    ∧ 0 ≤ Real.log (Real.exp y + Real.exp (-y))
    ∧ Real.log (Real.exp y + Real.exp (-y)) ≤ 51 := by
  obtain ⟨hy1, hy2⟩ := abs_le.mp hy
  have h2 : 2 ≤ Real.exp y + Real.exp (-y) := by
    have e1 := Real.add_one_le_exp y
    have e2 := Real.add_one_le_exp (-y)
    linarith
  have hup : Real.exp y + Real.exp (-y) ≤ 2 * Real.exp 50 := by
    have u1 : Real.exp y ≤ Real.exp 50 := Real.exp_le_exp.mpr hy2
    have u2 : Real.exp (-y) ≤ Real.exp 50 := Real.exp_le_exp.mpr (by linarith)
    linarith
  have hexp50 : Real.exp 50 < 3 ^ 50 := by
    have h3 : Real.exp 1 < 3 := lt_trans Real.exp_one_lt_d9 (by norm_num)
    have hpow : Real.exp 50 = Real.exp 1 ^ 50 := by
      rw [← Real.exp_nat_mul]
      norm_num
    rw [hpow]
    exact pow_lt_pow_left₀ h3 (le_of_lt (Real.exp_pos 1)) (by norm_num)
  have hlt : Real.exp y + Real.exp (-y) < 2 ^ 1023 := by
    have : (2 : ℝ) * 3 ^ 50 ≤ 2 ^ 1023 := by norm_num
    linarith
  have hlog0 : 0 ≤ Real.log (Real.exp y + Real.exp (-y)) :=
    Real.log_nonneg (by linarith)
  have hlogup : Real.log (Real.exp y + Real.exp (-y)) ≤ 51 := by
    have hmono : Real.log (Real.exp y + Real.exp (-y))
        ≤ Real.log (2 * Real.exp 50) :=
      Real.log_le_log (by positivity) hup
    have hval : Real.log (2 * Real.exp 50) = Real.log 2 + 50 := by
      rw [Real.log_mul (by norm_num) (Real.exp_ne_zero _), Real.log_exp]
    have hlog2 : Real.log 2 ≤ 1 := le_of_lt (lt_trans Real.log_two_lt_d9 (by norm_num))
    rw [hval] at hmono
    linarith
  exact ⟨h2, hlt, hlog0, hlogup⟩

/-- Claim C9: whenever every entry of `X·B + c` has magnitude at most 50,
every intermediate `exp(XBC) + exp(-XBC)` value computed by
`GaussBernRBM.log_den` lies in `[2, 2^1023)` — strictly inside the
double-precision representable range, so the computation cannot overflow
to Inf or produce NaN — and the log-sum term differs from the finite
polynomial part of `log_den` by at most `dh * 51`. -/
theorem gauss_bern_rbm_log_den_finite {dx dh : ℕ}
    (B : Matrix (Fin dx) (Fin dh) ℝ) (b : Fin dx → ℝ) (c : Fin dh → ℝ)
    (x : Fin dx → ℝ) (hY : ∀ j, |GaussBernRBM.xbc B c x j| ≤ 50) :
    (∀ j, 2 ≤ Real.exp (GaussBernRBM.xbc B c x j)
              + Real.exp (-GaussBernRBM.xbc B c x j)
        ∧ Real.exp (GaussBernRBM.xbc B c x j)
              + Real.exp (-GaussBernRBM.xbc B c x j) < 2 ^ 1023)
    ∧ |GaussBernRBM.log_den_row B b c x
        - ((∑ i, x i * b i) - 0.5 * (∑ i, x i ^ 2))| ≤ dh * 51 := by
  refine ⟨fun j => ⟨(rbm_cosh_bounds _ (hY j)).1, (rbm_cosh_bounds _ (hY j)).2.1⟩, ?_⟩
  have hdiff : GaussBernRBM.log_den_row B b c x
      - ((∑ i, x i * b i) - 0.5 * (∑ i, x i ^ 2))
      = ∑ j, Real.log (Real.exp (GaussBernRBM.xbc B c x j)
          + Real.exp (-GaussBernRBM.xbc B c x j)) := by
    rw [GaussBernRBM.log_den_row]
    ring
  rw [hdiff]
  calc |∑ j, Real.log (Real.exp (GaussBernRBM.xbc B c x j)
          + Real.exp (-GaussBernRBM.xbc B c x j))|
      ≤ ∑ j, |Real.log (Real.exp (GaussBernRBM.xbc B c x j)
          + Real.exp (-GaussBernRBM.xbc B c x j))| :=
        Finset.abs_sum_le_sum_abs _ _
    _ ≤ ∑ _j : Fin dh, (51 : ℝ) := by
        refine Finset.sum_le_sum fun j _ => ?_
        rw [abs_of_nonneg (rbm_cosh_bounds _ (hY j)).2.2.1]
        exact (rbm_cosh_bounds _ (hY j)).2.2.2
    _ = dh * 51 := by
        rw [Finset.sum_const, Finset.card_univ, Fintype.card_fin, nsmul_eq_mul]

/-- Witness for C9: the hypothesis is satisfiable with `dx = dh = 1` and
all parameters and inputs zero. -/
theorem gauss_bern_rbm_log_den_finite_witness :
    (∀ j : Fin 1, |GaussBernRBM.xbc (0 : Matrix (Fin 1) (Fin 1) ℝ)
        (fun _ => 0) (fun _ => 0) j| ≤ 50)
    ∧ ((∀ j : Fin 1, 2 ≤ Real.exp (GaussBernRBM.xbc (0 : Matrix (Fin 1) (Fin 1) ℝ)
              (fun _ => 0) (fun _ => 0) j)
              + Real.exp (-GaussBernRBM.xbc (0 : Matrix (Fin 1) (Fin 1) ℝ)
              (fun _ => 0) (fun _ => 0) j)
        ∧ Real.exp (GaussBernRBM.xbc (0 : Matrix (Fin 1) (Fin 1) ℝ)
              (fun _ => 0) (fun _ => 0) j)
              + Real.exp (-GaussBernRBM.xbc (0 : Matrix (Fin 1) (Fin 1) ℝ)
              (fun _ => 0) (fun _ => 0) j) < 2 ^ 1023)
      ∧ |GaussBernRBM.log_den_row (0 : Matrix (Fin 1) (Fin 1) ℝ)
          (fun _ => 0) (fun _ => 0) (fun _ => 0)
          - ((∑ i, (fun _ : Fin 1 => (0 : ℝ)) i * (fun _ : Fin 1 => (0 : ℝ)) i)
            - 0.5 * (∑ i, (fun _ : Fin 1 => (0 : ℝ)) i ^ 2))| ≤ (1 : ℕ) * 51) := by
  have hY : ∀ j : Fin 1, |GaussBernRBM.xbc (0 : Matrix (Fin 1) (Fin 1) ℝ)
      (fun _ => 0) (fun _ => 0) j| ≤ 50 := by
    intro j
    norm_num [GaussBernRBM.xbc]
  exact ⟨hY, gauss_bern_rbm_log_den_finite (0 : Matrix (Fin 1) (Fin 1) ℝ)
    (fun _ => 0) (fun _ => 0) (fun _ => 0) hY⟩

end
